import Mathlib

/-!
Verification of the duplicate-detection library in `excel_duplicates.py`.

The embedding models a loaded spreadsheet as a `Table`: an ordered header of
column names together with an ordered list of rows, each row a list of cell
values.  Cell values are `missing` (pandas NaN), a string, or an integer
(numeric cells, identified with their decimal string form `str(n)`).
DataFrame column assignment `df[c] = vals` is `Table.setCol` (overwrite the
first column named `c` in place, or append a new column), `df.drop(columns=cs)`
is `Table.dropCols`, and reading a column is `Table.getCol`.

The two exported operations are embedded as pure functions:
`findDuplicateRows` (exact-pair finder, lines 25-109) and
`detectDuplicateScenarios` (six-scenario classifier, lines 112-318).
File writes are modelled by recording, in the success value, the tables passed
to `to_excel` in call order; an `Except.error` result means the function raised
before any write.
-/

/-- A spreadsheet cell: pandas NaN, a string, or an integer value. -/
inductive Value where
  | missing
  | str (s : String)
  | nat (n : Nat)
deriving DecidableEq

/-- A loaded table: named columns and rows of cells.  Row `r` stores the cell
of column `t.header[i]` at position `i`. -/
structure Table where
  header : List String
  rows : List (List Value)
deriving DecidableEq

/-- A table is well formed when every row has exactly one cell per header
column.  `pandas.read_excel` always produces such tables. -/
def Table.WF (t : Table) : Prop :=
  ∀ r ∈ t.rows, r.length = t.header.length

/-- Index of the first column named `c`, as pandas column lookup does. -/
def colIndex (c : String) : List String → Option Nat
  | [] => none
  | h :: tl => if h = c then some 0 else (colIndex c tl).map (· + 1)

/-- Column read `df[c]` (on the first column named `c`). -/
def Table.getCol (t : Table) (c : String) : List Value :=
  match colIndex c t.header with
  | some i => t.rows.map (fun r => r.getD i Value.missing)
  | none => []

/-- Column assignment `df[c] = vs`: overwrite the first column named `c` in
place, or append a new column at the right edge. -/
def Table.setCol (t : Table) (c : String) (vs : List Value) : Table :=
  match colIndex c t.header with
  | some i => { header := t.header, rows := (t.rows.zip vs).map (fun p => p.1.set i p.2) }
  | none => { header := t.header ++ [c], rows := (t.rows.zip vs).map (fun p => p.1 ++ [p.2]) }

/-- Sequence of column assignments, performed left to right. -/
def Table.setCols (t : Table) : List (String × List Value) → Table
  | [] => t
  | p :: rest => (t.setCol p.1 p.2).setCols rest

/-- Effect of a column drop on one row: keep the cells whose column name is
not in `cs`. -/
def dropRow (hd cs : List String) (r : List Value) : List Value :=
  ((hd.zip r).filter (fun p => decide (p.1 ∉ cs))).map (fun p => p.2)

/-- Column removal `df.drop(columns=cs, errors="ignore")`: every column whose
name is in `cs` disappears, the others keep their relative order. -/
def Table.dropCols (t : Table) (cs : List String) : Table :=
  { header := t.header.filter (fun c => decide (c ∉ cs)),
    rows := t.rows.map (dropRow t.header cs) }

/-- Column projection used by `read_excel(usecols=cols)`: keep exactly the
columns whose name is in `cols`, in original file order. -/
def Table.selectCols (t : Table) (cols : List String) : Table :=
  { header := t.header.filter (fun c => decide (c ∈ cols)),
    rows := t.rows.map (fun r =>
      ((t.header.zip r).filter (fun p => decide (p.1 ∈ cols))).map (fun p => p.2)) }

/-- Errors raised by the two operations: `usecolsMismatch` is the ValueError
pandas raises from `read_excel` when a requested `usecols` name is absent from
the file header; `missingColumns` is the ValueError raised at lines 90-93 and
187-190, whose message interpolates both the missing names and the full actual
header list. -/
inductive ExcelError where
  | usecolsMismatch (missing : List String)
  | missingColumns (missing : List String) (header : List String)
deriving DecidableEq

/-- Models `pd.read_excel`: with no `usecols` the whole file is loaded; with
`usecols` pandas validates that every requested name occurs in the file header
(raising `Usecols do not match columns` otherwise) and then keeps exactly the
requested columns in file order. -/
def loadTable (usecols : Option (List String)) (file : Table) : Except ExcelError Table :=
  match usecols with
  | none => .ok file
  | some cols =>
      let missing := cols.filter (fun c => decide (c ∉ file.header))
      if missing.isEmpty then .ok (file.selectCols cols)
      else .error (.usecolsMismatch missing)

/-- Remove leading whitespace characters from a character list. -/
def dropLeadingWs : List Char → List Char
  | [] => []
  | c :: cs => if c.isWhitespace then dropLeadingWs cs else c :: cs

/-- Python `str.strip()`: remove leading and trailing whitespace. -/
def stripStr (s : String) : String :=
  ⟨(dropLeadingWs (dropLeadingWs s.data).reverse).reverse⟩

/-- Normalized value of a key cell (lines 204-206): NaN becomes the empty
string via `fillna("")`, every other value is taken to its string form by
`astype(str)` and stripped by `str.strip()`. -/
def normValue : Value → String
  | .missing => ""
  | .str s => stripStr s
  | .nat n => stripStr (toString n)

/-- Per-row group size `groupby(keys).transform("size")`: for each row, how
many rows share its key. -/
def groupSizes {α : Type} [DecidableEq α] (keys : List α) : List Nat :=
  keys.map (fun k => keys.count k)

/-- Per-row group distinct count `groupby(keys)[col].transform("nunique")`:
for each row, how many distinct `vals` occur among rows sharing its key. -/
def groupNuniques {α β : Type} [DecidableEq α] [DecidableEq β]
    (keys : List α) (vals : List β) : List Nat :=
  keys.map (fun k =>
    (((keys.zip vals).filter (fun p => decide (p.1 = k))).map (fun p => p.2)).dedup.length)

/-- Bitmask of one row from its six scenario tests (scenario s contributes
bit 2^(s-1), lines 208-255). -/
def flagOfRow (b1 b2 b3 b4 b5 b6 : Bool) : Nat :=
  (if b1 then 1 else 0) + (if b2 then 2 else 0) + (if b3 then 4 else 0) +
  (if b4 then 8 else 0) + (if b5 then 16 else 0) + (if b6 then 32 else 0)

/-- The group-based scenario bitmask computation of lines 208-255, on the
normalized country/company/website columns.  Each scenario groups by its fixed
fields and, for scenarios 2-6, additionally requires each free field to take
more than one distinct normalized value inside the group. -/
def scenarioFlags (countryN companyN websiteN : List String) : List Nat :=
  let s1 := groupSizes (countryN.zip (companyN.zip websiteN))
  let s2 := groupSizes (countryN.zip companyN)
  let w2 := groupNuniques (countryN.zip companyN) websiteN
  let s3 := groupSizes (countryN.zip websiteN)
  let c3 := groupNuniques (countryN.zip websiteN) companyN
  let s4 := groupSizes (companyN.zip websiteN)
  let c4 := groupNuniques (companyN.zip websiteN) countryN
  let s5 := groupSizes companyN
  let c5 := groupNuniques companyN countryN
  let w5 := groupNuniques companyN websiteN
  let s6 := groupSizes websiteN
  let c6 := groupNuniques websiteN countryN
  let n6 := groupNuniques websiteN companyN
  (List.range countryN.length).map (fun i =>
    flagOfRow (decide (1 < s1.getD i 0))
      (decide (1 < s2.getD i 0) && decide (1 < w2.getD i 0))
      (decide (1 < s3.getD i 0) && decide (1 < c3.getD i 0))
      (decide (1 < s4.getD i 0) && decide (1 < c4.getD i 0))
      (decide (1 < s5.getD i 0) && decide (1 < c5.getD i 0) && decide (1 < w5.getD i 0))
      (decide (1 < s6.getD i 0) && decide (1 < c6.getD i 0) && decide (1 < n6.getD i 0)))

/-- The scenario label map of lines 193-200. -/
def scenarioDescription : Nat → String
  | 1 => "完全一致"
  | 2 => "国家与名称一致，网址不一致"
  | 3 => "国家与网址一致，名称不一致"
  | 4 => "国家不一致，名称与网址一致"
  | 5 => "国家与网址不一致，名称一致"
  | 6 => "国家与名称不一致，网址一致"
  | _ => ""

/-- Insert into a sorted list of naturals (auxiliary for `sortNats`). -/
def insertSorted (a : Nat) : List Nat → List Nat
  | [] => [a]
  | b :: bs => if a ≤ b then a :: b :: bs else b :: insertSorted a bs

/-- Ascending sort of naturals, modelling the `np.sort` call at line 285. -/
def sortNats : List Nat → List Nat
  | [] => []
  | a :: as => insertSorted a (sortNats as)

/-- Python `sep.join(parts)`. -/
def joinSep (sep : String) : List String → String
  | [] => ""
  | [x] => x
  | x :: y :: ys => x ++ sep ++ joinSep sep (y :: ys)

/-- The `flags_to_note` conversion of lines 275-289 (the memo cache of lines
272-299 is a pure memoization of this function and does not change its value):
bitmask 0 renders as the sentinel, otherwise the scenario numbers whose bit is
set are extracted, sorted ascending and their labels joined by the separator. -/
def flagsToNote (sep : String) (flag : Nat) : String :=
  if flag = 0 then "无重复"
  else
    let matched := [1, 2, 3, 4, 5, 6].filter (fun s => decide (Nat.land (2 ^ (s - 1)) flag ≠ 0))
    if 0 < matched.length then
      joinSep sep ((sortNats matched).map scenarioDescription)
    else "无重复"

/-- Scenario numbers whose bit is set in a bitmask, ascending. -/
def matchedScenarios (flag : Nat) : List Nat :=
  [1, 2, 3, 4, 5, 6].filter (fun s => flag.testBit (s - 1))

/-- Note text as the spec words it: the sentinel for bitmask 0, otherwise the
labels of the distinct matched scenarios joined by the separator in ascending
scenario-number order (spec data-model section, used to compare against
`flagsToNote`). -/
def noteOfBitmask (sep : String) (flag : Nat) : String :=
  if flag = 0 then "无重复"
  else joinSep sep ((matchedScenarios flag).map scenarioDescription)

/-- The sixteen temporary column names of lines 204-255, in assignment order
(also the drop list of lines 258-263). -/
def tempColNames : List String :=
  ["_country_norm", "_company_norm", "_website_norm",
   "_size_1", "_size_2", "_website_nunique_2", "_size_3", "_company_nunique_3",
   "_size_4", "_country_nunique_4", "_size_5", "_country_nunique_5", "_website_nunique_5",
   "_size_6", "_country_nunique_6", "_company_nunique_6"]

/-- The temporary column assignments of lines 204-255 with their computed
values, in source order. -/
def tempAssignments (countryN companyN websiteN : List String) : List (String × List Value) :=
  let strVals := fun (l : List String) => l.map Value.str
  let natVals := fun (l : List Nat) => l.map Value.nat
  [("_country_norm", strVals countryN),
   ("_company_norm", strVals companyN),
   ("_website_norm", strVals websiteN),
   ("_size_1", natVals (groupSizes (countryN.zip (companyN.zip websiteN)))),
   ("_size_2", natVals (groupSizes (countryN.zip companyN))),
   ("_website_nunique_2", natVals (groupNuniques (countryN.zip companyN) websiteN)),
   ("_size_3", natVals (groupSizes (countryN.zip websiteN))),
   ("_company_nunique_3", natVals (groupNuniques (countryN.zip websiteN) companyN)),
   ("_size_4", natVals (groupSizes (companyN.zip websiteN))),
   ("_country_nunique_4", natVals (groupNuniques (companyN.zip websiteN) countryN)),
   ("_size_5", natVals (groupSizes companyN)),
   ("_country_nunique_5", natVals (groupNuniques companyN countryN)),
   ("_website_nunique_5", natVals (groupNuniques companyN websiteN)),
   ("_size_6", natVals (groupSizes websiteN)),
   ("_country_nunique_6", natVals (groupNuniques websiteN countryN)),
   ("_company_nunique_6", natVals (groupNuniques websiteN companyN))]

/-- Note cells computed by the classifier for a table: the rendered note of
each row's scenario bitmask, in row order. -/
def notesOf (countryCol companyCol websiteCol sep : String) (df : Table) : List Value :=
  (scenarioFlags ((df.getCol countryCol).map normValue)
    ((df.getCol companyCol).map normValue)
    ((df.getCol websiteCol).map normValue)).map (fun f => Value.str (flagsToNote sep f))

/-- Success value of the scenario classifier: the full annotated table, the
duplicates-only table, and the tables written out by `to_excel`, in call order
(lines 313-316 write the full table then the duplicates table). -/
structure DetectResult where
  full : Table
  dups : Table
  writes : List Table
deriving DecidableEq

/-- The full annotated table built by `detect_duplicate_scenarios`
(lines 202-302): normalize the three key columns, materialize the sixteen
temporary columns (lines 204-255), drop them (lines 257-264), and assign the
note column (line 302). -/
def classifiedTable (countryCol companyCol websiteCol noteCol sep : String)
    (df : Table) : Table :=
  ((df.setCols (tempAssignments ((df.getCol countryCol).map normValue)
      ((df.getCol companyCol).map normValue)
      ((df.getCol websiteCol).map normValue))).dropCols tempColNames).setCol noteCol
    (notesOf countryCol companyCol websiteCol sep df)

/-- The duplicates-only table of `detect_duplicate_scenarios` (lines 307-310):
the rows of the full annotated table whose note cell is not the sentinel. -/
def dupsTableOf (countryCol companyCol websiteCol noteCol sep : String)
    (df : Table) : Table :=
  { header := (classifiedTable countryCol companyCol websiteCol noteCol sep df).header,
    rows := (classifiedTable countryCol companyCol websiteCol noteCol sep df).rows.filter
      (fun r =>
        match colIndex noteCol
            (classifiedTable countryCol companyCol websiteCol noteCol sep df).header with
        | some i => decide (r.getD i Value.missing ≠ Value.str "无重复")
        | none => false) }

/-- Body of `detect_duplicate_scenarios` after column validation
(lines 192-318): the full annotated table, the duplicates-only table, and the
two writes of lines 313-316 in call order. -/
def detectResultOf (countryCol companyCol websiteCol noteCol sep : String)
    (df : Table) : DetectResult :=
  { full := classifiedTable countryCol companyCol websiteCol noteCol sep df,
    dups := dupsTableOf countryCol companyCol websiteCol noteCol sep df,
    writes := [classifiedTable countryCol companyCol websiteCol noteCol sep df,
      dupsTableOf countryCol companyCol websiteCol noteCol sep df] }

/-- The scenario classifier `detect_duplicate_scenarios` (lines 112-318) on an
already-loaded table: validate the three key columns (lines 184-190), then run
the classification body.  An error result means the ValueError was raised
before any classification or write. -/
def detectDuplicateScenarios (countryCol companyCol websiteCol noteCol sep : String)
    (df : Table) : Except ExcelError DetectResult :=
  let missing := [countryCol, companyCol, websiteCol].filter (fun c => decide (c ∉ df.header))
  if missing.isEmpty then .ok (detectResultOf countryCol companyCol websiteCol noteCol sep df)
  else .error (.missingColumns missing df.header)

/-- The `duplicated(subset=..., keep=False)` mask of line 96: row `i` is marked
exactly when some other row has an equal key. -/
def duplicatedKeepFalse {α : Type} [DecidableEq α] (d : α) (keys : List α) : List Bool :=
  (List.range keys.length).map (fun i =>
    (List.range keys.length).any (fun j =>
      decide (j ≠ i) && decide (keys.getD j d = keys.getD i d)))

/-- Success value of the exact-pair finder: the duplicates table and the tables
written out by `to_excel`, in call order. -/
structure FindResult where
  dups : Table
  writes : List Table
deriving DecidableEq

/-- The duplicates table of `find_duplicate_rows` (lines 95-97): mark every
row whose raw (name, link) key has another occurrence and keep exactly the
marked rows. -/
def dupTableOf (nameCol linkCol : String) (df : Table) : Table :=
  let keys := (df.getCol nameCol).zip (df.getCol linkCol)
  let mask := duplicatedKeepFalse (Value.missing, Value.missing) keys
  { header := df.header,
    rows := ((df.rows.zip mask).filter (fun p => p.2)).map (fun p => p.1) }

/-- Body of `find_duplicate_rows` after loading and column validation
(lines 95-109, write policy of lines 99-107): the duplicates table is returned
in every case, and it is written once unless it is empty and `write_empty` is
false. -/
def findResultOf (nameCol linkCol : String) (writeEmpty : Bool) (df : Table) : FindResult :=
  let dupDf := dupTableOf nameCol linkCol df
  { dups := dupDf,
    writes := if dupDf.rows.isEmpty then (if writeEmpty then [dupDf] else []) else [dupDf] }

/-- The exact-pair finder `find_duplicate_rows` (lines 25-109): load with
`usecols = set([name_col, link_col] + extra_columns)` when `extra_columns` is
given (lines 79-86), validate the two key columns (lines 88-93), then run the
finder body.  An error result means the ValueError was raised before any write. -/
def findDuplicateRows (nameCol linkCol : String) (extraColumns : Option (List String))
    (writeEmpty : Bool) (file : Table) : Except ExcelError FindResult :=
  match loadTable (extraColumns.map (fun ex => [nameCol, linkCol] ++ ex)) file with
  | .error e => .error e
  | .ok df =>
      let missing := [nameCol, linkCol].filter (fun c => decide (c ∉ df.header))
      if missing.isEmpty then .ok (findResultOf nameCol linkCol writeEmpty df)
      else .error (.missingColumns missing df.header)

/-- Whether a pair of rows (given by their normalized key values) satisfies
scenario `s` of the docstring definitions (lines 133-139): each scenario fixes
which of the three fields must be equal and which must differ. -/
def pairSatisfies (s : Nat) (c1 n1 w1 c2 n2 w2 : String) : Bool :=
  match s with
  | 1 => decide (c1 = c2) && decide (n1 = n2) && decide (w1 = w2)
  | 2 => decide (c1 = c2) && decide (n1 = n2) && !decide (w1 = w2)
  | 3 => decide (c1 = c2) && !decide (n1 = n2) && decide (w1 = w2)
  | 4 => !decide (c1 = c2) && decide (n1 = n2) && decide (w1 = w2)
  | 5 => !decide (c1 = c2) && decide (n1 = n2) && !decide (w1 = w2)
  | 6 => !decide (c1 = c2) && !decide (n1 = n2) && decide (w1 = w2)
  | _ => false

/-- Literal pairwise test: row `i` matches scenario `s` when some other row
`j` satisfies the scenario's pattern against it.  This is the brute-force
reference definition the spec states the group-based classifier must equal
(spec sections 3 and 8), written from the spec's words. -/
def pairwiseHas (s : Nat) (countryN companyN websiteN : List String) (i : Nat) : Bool :=
  (List.range countryN.length).any (fun j =>
    decide (j ≠ i) && pairSatisfies s
      (countryN.getD i "") (companyN.getD i "") (websiteN.getD i "")
      (countryN.getD j "") (companyN.getD j "") (websiteN.getD j ""))

/-- Per-row bitmasks of the literal pairwise definition (reference
implementation from the spec, to be compared with `scenarioFlags`). -/
def pairwiseFlags (countryN companyN websiteN : List String) : List Nat :=
  (List.range countryN.length).map (fun i =>
    flagOfRow (pairwiseHas 1 countryN companyN websiteN i)
      (pairwiseHas 2 countryN companyN websiteN i)
      (pairwiseHas 3 countryN companyN websiteN i)
      (pairwiseHas 4 countryN companyN websiteN i)
      (pairwiseHas 5 countryN companyN websiteN i)
      (pairwiseHas 6 countryN companyN websiteN i))

/-! ### Example tables used by concrete theorems and witnesses -/

/-- Three rows sharing one company, with countries US/UK/US and websites
a.com/a.com/b.com (already normalized). -/
def exCountryN : List String := ["US", "UK", "US"]

/-- Company column of the same example. -/
def exCompanyN : List String := ["Acme", "Acme", "Acme"]

/-- Website column of the same example. -/
def exWebsiteN : List String := ["a.com", "a.com", "b.com"]

/-- A table whose country cells are both missing and whose company and website
cells agree. -/
def sampleMissingTable : Table :=
  { header := ["国家", "企业名称", "网址"],
    rows := [[Value.missing, Value.str "Acme", Value.str "a.com"],
             [Value.missing, Value.str "Acme", Value.str "a.com"]] }

/-- A one-row table with the default name/link header and no duplicates. -/
def samplePairTable : Table :=
  { header := ["名字", "链接"],
    rows := [[Value.str "A", Value.str "L1"]] }

/-- A three-row table in which rows 0 and 2 share the raw (name, link) key. -/
def sampleDupTable : Table :=
  { header := ["名字", "链接"],
    rows := [[Value.str "A", Value.str "L1"], [Value.str "B", Value.str "L2"],
             [Value.str "A", Value.str "L1"]] }

/-- A table lacking every required key column. -/
def sampleNoKeyTable : Table :=
  { header := ["其他"], rows := [] }

/-- A table that already contains a reserved temporary column and a note
column before classification. -/
def sampleClobberTable : Table :=
  { header := ["国家", "企业名称", "网址", "_country_norm", "备注"],
    rows := [[Value.str "US", Value.str "Acme", Value.str "a.com",
              Value.str "junk", Value.str "old"]] }

/-! ### Small list and string lemmas -/

theorem getD_set_self {α : Type} (d : α) : ∀ (l : List α) (i : Nat) (v : α), i < l.length →
    (l.set i v).getD i d = v
  | [], _, _, h => absurd h (by simp)
  | _ :: _, 0, _, _ => rfl
  | _ :: l, i + 1, v, h => getD_set_self d l i v (by simpa using h)

theorem getD_append_self {α : Type} (d : α) : ∀ (l : List α) (v : α),
    (l ++ [v]).getD l.length d = v
  | [], _ => rfl
  | _ :: l, v => getD_append_self d l v

theorem colIndex_eq_none (c : String) (l : List String) : colIndex c l = none ↔ c ∉ l := by
  induction l with
  | nil => simp [colIndex]
  | cons hd tl ih =>
      by_cases hc : hd = c
      · simp [colIndex, hc]
      · simp [colIndex, hc, Option.map_eq_none', ih, Ne.symm hc]

theorem colIndex_bounds (c : String) : ∀ (l : List String) (i : Nat), colIndex c l = some i →
    i < l.length ∧ l.getD i "" = c := by
  intro l
  induction l with
  | nil => intro i h; cases h
  | cons hd tl ih =>
      intro i h
      by_cases hc : hd = c
      · simp [colIndex, hc] at h
        subst h
        simpa using hc
      · simp only [colIndex, hc, if_false] at h
        cases htl : colIndex c tl with
        | none => rw [htl] at h; cases h
        | some j =>
            rw [htl] at h
            simp only [Option.map_some', Option.some.injEq] at h
            subst h
            obtain ⟨h1, h2⟩ := ih j htl
            exact ⟨by simpa using h1, by simpa using h2⟩

theorem colIndex_append_self (c : String) (l : List String) (hc : c ∉ l) :
    colIndex c (l ++ [c]) = some l.length := by
  induction l with
  | nil => simp [colIndex]
  | cons hd tl ih =>
      have hne : hd ≠ c := fun h => hc (by simp [h])
      have htl : c ∉ tl := fun h => hc (by simp [h])
      simp [colIndex, hne, ih htl]

theorem joinSep_eq_head_append (sep x : String) (xs : List String) :
    ∃ t, joinSep sep (x :: xs) = x ++ t := by
  cases xs with
  | nil => exact ⟨"", by simp [joinSep, String.append_empty]⟩
  | cons y ys => exact ⟨sep ++ joinSep sep (y :: ys), by simp [joinSep, String.append_assoc]⟩

theorem joinSep_ne_of_head_length (sep x : String) (xs : List String) (hx : 3 < x.length) :
    joinSep sep (x :: xs) ≠ "无重复" := by
  obtain ⟨t, ht⟩ := joinSep_eq_head_append sep x xs
  rw [ht]
  intro h
  have hlen := congrArg String.length h
  rw [String.length_append] at hlen
  have h3 : ("无重复" : String).length = 3 := rfl
  omega

/-! ### Bitmask and note lemmas -/

theorem flagOfRow_lt_64 : ∀ b1 b2 b3 b4 b5 b6 : Bool, flagOfRow b1 b2 b3 b4 b5 b6 < 64 := by
  decide

theorem mem_scenarioFlags_lt_64 (cN nN wN : List String) (f : Nat)
    (hf : f ∈ scenarioFlags cN nN wN) : f < 64 := by
  simp only [scenarioFlags, List.mem_map] at hf
  obtain ⟨i, _, rfl⟩ := hf
  exact flagOfRow_lt_64 _ _ _ _ _ _

theorem flagsToNote_ne_sentinel (sep : String) (f : Nat) (h1 : 0 < f) (h2 : f < 64) :
    flagsToNote sep f ≠ "无重复" := by
  interval_cases f <;> exact joinSep_ne_of_head_length sep _ _ (by decide)

/-- C1: the group-based classifier does NOT refine the literal pairwise
definition on scenarios 5 and 6.  On the table with normalized key rows
(US, Acme, a.com), (UK, Acme, a.com), (US, Acme, b.com), the company group
"Acme" has two distinct countries and two distinct websites, so the code sets
the scenario-5 bit (value 16) on row 0 (its bitmask is 26 = 2+8+16), yet no
single other row differs from row 0 in both country and website, so the
pairwise definition leaves that bit clear (row 0's pairwise bitmask is
10 = 2+8).  Rows 1 and 2 agree under both definitions. -/
theorem scenario5_group_vs_pairwise_mismatch :
    scenarioFlags exCountryN exCompanyN exWebsiteN = [26, 24, 18] ∧
    pairwiseFlags exCountryN exCompanyN exWebsiteN = [10, 24, 18] ∧
    Nat.testBit 26 4 = true ∧ Nat.testBit 10 4 = false ∧
    pairwiseHas 5 exCountryN exCompanyN exWebsiteN 0 = false := by
  decide

/-- C6: a name in `extra_columns` that is absent from the file header is not
silently ignored.  The tentative `usecols` set of line 83 is passed to
`read_excel` unfiltered (the filtering announced by the comment at line 82 is
never performed), so pandas raises its `Usecols do not match columns`
ValueError and the whole call fails instead of loading without the absent
column, contradicting the docstring at line 54. -/
theorem extra_columns_absent_name_raises :
    findDuplicateRows "名字" "链接" (some ["邮箱"]) true samplePairTable =
      .error (.usecolsMismatch ["邮箱"]) := by
  rfl

/-- C7: a missing key cell normalizes to the empty string, any other value to
its stripped string form; consequently two rows whose country cells are both
missing (and whose other key cells agree) group together and are classified
as scenario 1 ("完全一致") by the classifier. -/
theorem normalization_and_missing_match :
    normValue Value.missing = "" ∧
    (∀ s : String, normValue (Value.str s) = stripStr s) ∧
    normValue (Value.str "  Acme  ") = "Acme" ∧
    normValue (Value.nat 5) = "5" ∧
    (detectResultOf "国家" "企业名称" "网址" "备注" "；" sampleMissingTable).full.getCol "备注" =
      [Value.str "完全一致", Value.str "完全一致"] := by
  exact ⟨rfl, fun s => rfl, by decide, by decide, by decide⟩

/-- C2: for every bitmask produced by the classifier, the bitmask is below 64,
the rendered note equals the sentinel exactly for bitmask 0, and otherwise it
is the labels of the distinct matched scenarios joined by the separator in
ascending scenario-number order (each matched scenario exactly once, the
matched list being strictly sorted). -/
theorem note_rendering_correct (sep : String) (cN nN wN : List String) (f : Nat)
    (hf : f ∈ scenarioFlags cN nN wN) :
    f < 64 ∧ flagsToNote sep f = noteOfBitmask sep f ∧
    (flagsToNote sep f = "无重复" ↔ f = 0) ∧
    (matchedScenarios f).Pairwise (· < ·) := by
  have h64 := mem_scenarioFlags_lt_64 cN nN wN f hf
  refine ⟨h64, ?_, ?_, ?_⟩
  · interval_cases f <;> rfl
  · constructor
    · intro hs
      by_contra hne
      exact flagsToNote_ne_sentinel sep f (Nat.pos_of_ne_zero hne) h64 hs
    · rintro rfl; rfl
  · unfold matchedScenarios
    exact List.Pairwise.filter _ (by decide)

/-- Witness for `note_rendering_correct` at a concrete bitmask: two fully
identical rows give both rows bitmask 1, whose note is the scenario-1 label. -/
theorem note_rendering_correct_witness :
    1 < 64 ∧ flagsToNote "；" 1 = noteOfBitmask "；" 1 ∧
    (flagsToNote "；" 1 = "无重复" ↔ 1 = 0) ∧
    (matchedScenarios 1).Pairwise (· < ·) :=
  note_rendering_correct "；" ["a", "a"] ["b", "b"] ["c", "c"] 1 (by decide)

/-! ### Table operation lemmas -/

theorem setCol_rows_length (t : Table) (c : String) (vs : List Value)
    (h : vs.length = t.rows.length) : (t.setCol c vs).rows.length = t.rows.length := by
  cases hcol : colIndex c t.header with
  | some i => simp [Table.setCol, hcol, List.length_zip, h]
  | none => simp [Table.setCol, hcol, List.length_zip, h]

theorem WF_setCol (t : Table) (c : String) (vs : List Value) (hwf : t.WF)
    (h : vs.length = t.rows.length) : (t.setCol c vs).WF := by
  intro r hr
  cases hcol : colIndex c t.header with
  | some i =>
      simp only [Table.setCol, hcol, List.mem_map] at hr ⊢
      obtain ⟨p, hmem, rfl⟩ := hr
      have := hwf p.1 (List.of_mem_zip hmem).1
      simp [this]
  | none =>
      simp only [Table.setCol, hcol, List.mem_map] at hr ⊢
      obtain ⟨p, hmem, rfl⟩ := hr
      have := hwf p.1 (List.of_mem_zip hmem).1
      simp [this]

theorem setCol_fresh (t : Table) (c : String) (vs : List Value) (hc : c ∉ t.header) :
    t.setCol c vs = { header := t.header ++ [c],
                      rows := (t.rows.zip vs).map (fun p => p.1 ++ [p.2]) } := by
  have h := (colIndex_eq_none c t.header).mpr hc
  simp [Table.setCol, h]

theorem dropRow_append_mem (hd D : List String) (r : List Value) (c : String) (v : Value)
    (hlen : hd.length = r.length) (hc : c ∈ D) :
    dropRow (hd ++ [c]) D (r ++ [v]) = dropRow hd D r := by
  unfold dropRow
  rw [List.zip_append hlen, List.filter_append]
  simp [hc]

theorem dropRow_set_mem (D : List String) (hd : List String) :
    ∀ (r : List Value) (i : Nat) (v : Value), i < hd.length → hd.getD i "" ∈ D →
      dropRow hd D (r.set i v) = dropRow hd D r := by
  induction hd with
  | nil => intro r i v h _; simp at h
  | cons cHd tl ih =>
      intro r i v hlt hc
      cases r with
      | nil => simp [List.set_nil]
      | cons x r0 =>
          cases i with
          | zero =>
              simp only [List.getD_cons_zero] at hc
              simp [dropRow, List.zip_cons_cons, List.filter_cons, hc]
          | succ j =>
              simp only [List.getD_cons_succ] at hc
              have hih := ih r0 j v (by simpa using hlt) hc
              simp only [List.set_cons_succ, dropRow, List.zip_cons_cons, List.filter_cons]
              simp only [dropRow] at hih
              simp only [decide_not] at hih ⊢
              cases hdm : decide (cHd ∈ D) <;> simp [hih]

theorem dropCols_setCol (t : Table) (c : String) (vs : List Value) (D : List String)
    (hwf : t.WF) (hc : c ∈ D) (hlen : vs.length = t.rows.length) :
    (t.setCol c vs).dropCols D = t.dropCols D := by
  cases hcol : colIndex c t.header with
  | some i =>
      obtain ⟨hilt, hgetD⟩ := colIndex_bounds c t.header i hcol
      simp only [Table.setCol, hcol, Table.dropCols]
      congr 1
      rw [List.map_map]
      calc (t.rows.zip vs).map (fun p => dropRow t.header D (p.1.set i p.2))
          = (t.rows.zip vs).map (fun p => dropRow t.header D p.1) :=
            List.map_congr_left (fun p _ => dropRow_set_mem D t.header p.1 i p.2 hilt (hgetD ▸ hc))
        _ = ((t.rows.zip vs).map Prod.fst).map (dropRow t.header D) := by rw [List.map_map]; rfl
        _ = t.rows.map (dropRow t.header D) := by rw [List.map_fst_zip _ _ (le_of_eq hlen.symm)]
  | none =>
      simp only [Table.setCol, hcol, Table.dropCols]
      congr 1
      · rw [List.filter_append]
        simp [hc]
      · rw [List.map_map]
        calc (t.rows.zip vs).map (fun p => dropRow (t.header ++ [c]) D (p.1 ++ [p.2]))
            = (t.rows.zip vs).map (fun p => dropRow t.header D p.1) :=
              List.map_congr_left (fun p hp =>
                dropRow_append_mem t.header D p.1 c p.2
                  (hwf p.1 (List.of_mem_zip hp).1).symm hc)
          _ = ((t.rows.zip vs).map Prod.fst).map (dropRow t.header D) := by rw [List.map_map]; rfl
          _ = t.rows.map (dropRow t.header D) := by rw [List.map_fst_zip _ _ (le_of_eq hlen.symm)]

theorem dropCols_setCols (D : List String) :
    ∀ (l : List (String × List Value)) (t : Table), t.WF →
      (∀ p ∈ l, p.1 ∈ D ∧ p.2.length = t.rows.length) →
      (t.setCols l).dropCols D = t.dropCols D := by
  intro l
  induction l with
  | nil => intro t _ _; rfl
  | cons p rest ih =>
      intro t hwf hl
      have hp := hl p (by simp)
      have h1 : (t.setCol p.1 p.2).WF := WF_setCol t p.1 p.2 hwf hp.2
      have h2 : (t.setCol p.1 p.2).rows.length = t.rows.length :=
        setCol_rows_length t p.1 p.2 hp.2
      have hrest : ∀ q ∈ rest, q.1 ∈ D ∧ q.2.length = (t.setCol p.1 p.2).rows.length := by
        intro q hq
        have hq2 := hl q (by simp [hq])
        exact ⟨hq2.1, by rw [h2]; exact hq2.2⟩
      calc (t.setCols (p :: rest)).dropCols D
          = ((t.setCol p.1 p.2).setCols rest).dropCols D := rfl
        _ = (t.setCol p.1 p.2).dropCols D := ih _ h1 hrest
        _ = t.dropCols D := dropCols_setCol t p.1 p.2 D hwf hp.1 hp.2

theorem dropRow_eq_self (hd D : List String) (r : List Value)
    (hlen : r.length = hd.length) (hdisj : ∀ c ∈ hd, c ∉ D) : dropRow hd D r = r := by
  unfold dropRow
  have hfil : (hd.zip r).filter (fun p => decide (p.1 ∉ D)) = hd.zip r :=
    List.filter_eq_self.mpr (fun p hp => by
      simpa using hdisj p.1 (List.of_mem_zip hp).1)
  rw [hfil, List.map_snd_zip _ _ (le_of_eq hlen)]

theorem dropCols_eq_self (t : Table) (D : List String) (hwf : t.WF)
    (hdisj : ∀ c ∈ t.header, c ∉ D) : t.dropCols D = t := by
  cases t with
  | mk hd rows =>
      simp only [Table.dropCols]
      congr 1
      · exact List.filter_eq_self.mpr (fun a ha => by simpa using hdisj a ha)
      · calc rows.map (dropRow hd D)
            = rows.map id := List.map_congr_left (fun r hr =>
                dropRow_eq_self hd D r (hwf r hr) hdisj)
          _ = rows := List.map_id rows

theorem dropRow_length (D : List String) (hd : List String) :
    ∀ r : List Value, r.length = hd.length →
      (dropRow hd D r).length = (hd.filter (fun c => decide (c ∉ D))).length := by
  induction hd with
  | nil => intro r h; simp [dropRow]
  | cons c tl ih =>
      intro r h
      cases r with
      | nil => simp at h
      | cons x r0 =>
          have hih := ih r0 (by simpa using h)
          simp only [dropRow, List.zip_cons_cons, List.filter_cons]
          simp only [dropRow] at hih
          simp only [decide_not] at hih ⊢
          cases hdm : decide (c ∈ D) <;> simp [hih]

theorem WF_dropCols (t : Table) (D : List String) (hwf : t.WF) : (t.dropCols D).WF := by
  intro r hr
  simp only [Table.dropCols, List.mem_map] at hr
  obtain ⟨r0, hr0, rfl⟩ := hr
  exact dropRow_length D t.header r0 (hwf r0 hr0)

theorem getCol_setCol_self (t : Table) (c : String) (vs : List Value) (hwf : t.WF)
    (hlen : vs.length = t.rows.length) : (t.setCol c vs).getCol c = vs := by
  cases hcol : colIndex c t.header with
  | some i =>
      obtain ⟨hilt, _⟩ := colIndex_bounds c t.header i hcol
      simp only [Table.setCol, hcol, Table.getCol]
      rw [List.map_map]
      calc (t.rows.zip vs).map (fun p => (p.1.set i p.2).getD i Value.missing)
          = (t.rows.zip vs).map Prod.snd :=
            List.map_congr_left (fun p hp =>
              getD_set_self Value.missing p.1 i p.2
                (by rw [hwf p.1 (List.of_mem_zip hp).1]; exact hilt))
        _ = vs := List.map_snd_zip _ _ (le_of_eq hlen)
  | none =>
      have hfresh := (colIndex_eq_none c t.header).mp hcol
      simp only [Table.setCol, hcol, Table.getCol,
        colIndex_append_self c t.header hfresh]
      rw [List.map_map]
      calc (t.rows.zip vs).map (fun p => (p.1 ++ [p.2]).getD t.header.length Value.missing)
          = (t.rows.zip vs).map Prod.snd :=
            List.map_congr_left (fun p hp => by
              rw [← hwf p.1 (List.of_mem_zip hp).1]
              exact getD_append_self Value.missing p.1 p.2)
        _ = vs := List.map_snd_zip _ _ (le_of_eq hlen)

theorem getCol_length_of_mem (t : Table) (c : String) (hc : c ∈ t.header) :
    (t.getCol c).length = t.rows.length := by
  cases hcol : colIndex c t.header with
  | some i => simp [Table.getCol, hcol]
  | none => exact absurd ((colIndex_eq_none c t.header).mp hcol) (by simpa using hc)

/-! ### Lengths and inversion lemmas -/

theorem groupSizes_length {α : Type} [DecidableEq α] (keys : List α) :
    (groupSizes keys).length = keys.length := by
  simp [groupSizes]

theorem groupNuniques_length {α β : Type} [DecidableEq α] [DecidableEq β]
    (keys : List α) (vals : List β) : (groupNuniques keys vals).length = keys.length := by
  simp [groupNuniques]

theorem scenarioFlags_length (cN nN wN : List String) :
    (scenarioFlags cN nN wN).length = cN.length := by
  simp [scenarioFlags]

theorem tempAssignments_lengths (cN nN wN : List String)
    (hn : nN.length = cN.length) (hw : wN.length = cN.length) :
    ∀ p ∈ tempAssignments cN nN wN, p.1 ∈ tempColNames ∧ p.2.length = cN.length := by
  intro p hp
  simp only [tempAssignments, List.mem_cons, List.not_mem_nil, or_false] at hp
  rcases hp with rfl | rfl | rfl | rfl | rfl | rfl | rfl | rfl | rfl | rfl | rfl | rfl | rfl |
    rfl | rfl | rfl <;>
    exact ⟨by simp [tempColNames],
      by simp [groupSizes, groupNuniques, List.length_zip, hn, hw]⟩

theorem notesOf_length (countryCol companyCol websiteCol sep : String) (t : Table)
    (hcc : countryCol ∈ t.header) :
    (notesOf countryCol companyCol websiteCol sep t).length = t.rows.length := by
  simp [notesOf, scenarioFlags_length, getCol_length_of_mem t countryCol hcc]

theorem detect_ok_inv (countryCol companyCol websiteCol noteCol sep : String) (t : Table)
    (res : DetectResult)
    (hres : detectDuplicateScenarios countryCol companyCol websiteCol noteCol sep t = .ok res) :
    countryCol ∈ t.header ∧ companyCol ∈ t.header ∧ websiteCol ∈ t.header ∧
    res = detectResultOf countryCol companyCol websiteCol noteCol sep t := by
  simp only [detectDuplicateScenarios] at hres
  by_cases hm : ([countryCol, companyCol, websiteCol].filter
      (fun c => decide (c ∉ t.header))).isEmpty
  · rw [if_pos hm] at hres
    injection hres with h
    have hall := List.filter_eq_nil_iff.mp (List.isEmpty_iff.mp hm)
    refine ⟨?_, ?_, ?_, h.symm⟩
    · simpa using hall countryCol (by simp)
    · simpa using hall companyCol (by simp)
    · simpa using hall websiteCol (by simp)
  · rw [if_neg hm] at hres
    cases hres

theorem find_ok_inv (nameCol linkCol : String) (extra : Option (List String)) (we : Bool)
    (file : Table) (fres : FindResult)
    (hres : findDuplicateRows nameCol linkCol extra we file = .ok fres) :
    ∃ df, loadTable (extra.map (fun ex => [nameCol, linkCol] ++ ex)) file = .ok df ∧
      nameCol ∈ df.header ∧ linkCol ∈ df.header ∧
      fres = findResultOf nameCol linkCol we df := by
  unfold findDuplicateRows at hres
  cases hload : loadTable (extra.map (fun ex => [nameCol, linkCol] ++ ex)) file with
  | error e => rw [hload] at hres; cases hres
  | ok df =>
      rw [hload] at hres
      have hres2 : (if ([nameCol, linkCol].filter (fun c => decide (c ∉ df.header))).isEmpty
          then (.ok (findResultOf nameCol linkCol we df) : Except ExcelError FindResult)
          else .error (.missingColumns
            ([nameCol, linkCol].filter (fun c => decide (c ∉ df.header))) df.header)) =
          .ok fres := hres
      by_cases hm : ([nameCol, linkCol].filter (fun c => decide (c ∉ df.header))).isEmpty
      · rw [if_pos hm] at hres2
        injection hres2 with h
        have hall := List.filter_eq_nil_iff.mp (List.isEmpty_iff.mp hm)
        exact ⟨df, rfl, by simpa using hall nameCol (by simp),
          by simpa using hall linkCol (by simp), h.symm⟩
      · rw [if_neg hm] at hres2
        cases hres2

/-! ### Duplicate-mask lemmas for the exact-pair finder -/

theorem getD_mem {α : Type} (d : α) (l : List α) (i : Nat) (hi : i < l.length) :
    l.getD i d ∈ l := by
  rw [List.getD_eq_getElem l d hi]
  exact List.getElem_mem hi

theorem two_le_count_iff {α : Type} [DecidableEq α] (d : α) :
    ∀ (keys : List α) (i : Nat), i < keys.length →
      (2 ≤ keys.count (keys.getD i d) ↔
        ∃ j, j < keys.length ∧ j ≠ i ∧ keys.getD j d = keys.getD i d) := by
  intro keys
  induction keys with
  | nil => intro i h; simp at h
  | cons a l ih =>
      intro i hi
      cases i with
      | zero =>
          simp only [List.getD_cons_zero, List.count_cons_self]
          constructor
          · intro h2
            have hmem : a ∈ l := List.count_pos_iff.mp (by omega)
            obtain ⟨j, hj, hja⟩ := List.mem_iff_getElem.mp hmem
            refine ⟨j + 1, by simpa using hj, by omega, ?_⟩
            simp only [List.getD_cons_succ]
            rw [List.getD_eq_getElem l d hj, hja]
          · rintro ⟨j, hj, hjne, hjeq⟩
            cases j with
            | zero => omega
            | succ j0 =>
                simp only [List.getD_cons_succ] at hjeq
                have hj0 : j0 < l.length := by simpa using hj
                have hmem : a ∈ l := hjeq ▸ getD_mem d l j0 hj0
                have h1 := List.count_pos_iff.mpr hmem
                omega
      | succ i0 =>
          have hi0 : i0 < l.length := by simpa using hi
          simp only [List.getD_cons_succ, List.count_cons]
          have hksplit : (∃ j, j < (a :: l).length ∧ j ≠ i0 + 1 ∧
              (a :: l).getD j d = l.getD i0 d) ↔
              (a = l.getD i0 d ∨ ∃ j0, j0 < l.length ∧ j0 ≠ i0 ∧ l.getD j0 d = l.getD i0 d) := by
            constructor
            · rintro ⟨j, hj, hjne, hjeq⟩
              cases j with
              | zero => exact Or.inl (by simpa using hjeq)
              | succ j0 =>
                  exact Or.inr ⟨j0, by simpa using hj, by omega,
                    by simpa using hjeq⟩
            · rintro (ha | ⟨j0, hj0, hj0ne, hj0eq⟩)
              · exact ⟨0, by simp, by omega, by simpa using ha⟩
              · exact ⟨j0 + 1, by simpa using hj0, by omega, by simpa using hj0eq⟩
          rw [hksplit]
          have hmem : l.getD i0 d ∈ l := getD_mem d l i0 hi0
          have hcount := List.count_pos_iff.mpr hmem
          by_cases hak : a = l.getD i0 d
          · rw [if_pos (beq_iff_eq.mpr hak)]
            constructor
            · intro _; exact Or.inl hak
            · intro _; omega
          · rw [if_neg (fun hc => hak (beq_iff_eq.mp hc)), Nat.add_zero, ih i0 hi0]
            constructor
            · intro h; exact Or.inr h
            · rintro (ha | h)
              · exact absurd ha hak
              · exact h

theorem filterlen_eq_count {α : Type} [DecidableEq α] (k : α) (keys : List α) :
    (keys.filter (fun x => decide (x = k))).length = keys.count k := by
  induction keys with
  | nil => rfl
  | cons b l ih =>
      rw [List.count_cons, List.filter_cons]
      by_cases hb : b = k
      · rw [if_pos (show decide (b = k) = true by simpa using hb),
          if_pos (beq_iff_eq.mpr hb), List.length_cons, ih]
      · rw [if_neg (show ¬decide (b = k) = true by simpa using hb),
          if_neg (fun hc => hb (beq_iff_eq.mp hc)), Nat.add_zero, ih]

theorem duplicatedKeepFalse_eq_countMap {α : Type} [DecidableEq α] (d : α) (keys : List α) :
    duplicatedKeepFalse d keys =
      keys.map (fun k => decide (2 ≤ (keys.filter (fun x => decide (x = k))).length)) := by
  apply List.ext_getElem (by simp [duplicatedKeepFalse])
  intro i h1 h2
  have hi : i < keys.length := by simpa [duplicatedKeepFalse] using h1
  simp only [duplicatedKeepFalse, List.getElem_map, List.getElem_range]
  rw [Bool.eq_iff_iff]
  simp only [List.any_eq_true, List.mem_range, Bool.and_eq_true, decide_eq_true_eq]
  rw [filterlen_eq_count, ← List.getD_eq_getElem keys d hi, two_le_count_iff d keys i hi]

theorem filter_zip_map {α : Type} (l : List α) (q : α → Bool) :
    ((l.zip (l.map q)).filter (fun p => p.2)).map (fun p => p.1) = l.filter q := by
  induction l with
  | nil => rfl
  | cons a l ih =>
      simp only [List.map_cons, List.zip_cons_cons, List.filter_cons]
      cases hq : q a <;> simp [hq, ih]

theorem filterMask_map_sublist {α : Type} : ∀ (l : List α) (m : List Bool),
    (((l.zip m).filter (fun p => p.2)).map (fun p => p.1)).Sublist l := by
  intro l
  induction l with
  | nil => intro m; simp
  | cons a l ih =>
      intro m
      cases m with
      | nil => simp
      | cons b m0 =>
          cases b with
          | true => simpa using (ih m0).cons₂ a
          | false => simpa using (ih m0).cons a

theorem findResultOf_dups (nameCol linkCol : String) (we : Bool) (df : Table) :
    (findResultOf nameCol linkCol we df).dups =
      { header := df.header,
        rows := ((df.rows.zip (duplicatedKeepFalse (Value.missing, Value.missing)
          ((df.getCol nameCol).zip (df.getCol linkCol)))).filter (fun p => p.2)).map
          (fun p => p.1) } := by
  rfl

/-! ### Structure of the classifier output under fresh reserved names -/

theorem dropCols_append_single (t : Table) (c : String) (vs : List Value) (hwf : t.WF)
    (hc : c ∉ t.header) (hlen : vs.length = t.rows.length) :
    (Table.mk (t.header ++ [c]) ((t.rows.zip vs).map (fun p => p.1 ++ [p.2]))).dropCols [c]
      = t := by
  cases t with
  | mk hd rows =>
      simp only [Table.dropCols]
      congr 1
      · rw [List.filter_append]
        have h1 : hd.filter (fun x => decide (x ∉ [c])) = hd :=
          List.filter_eq_self.mpr (fun a ha => by
            simp only [List.mem_singleton, decide_eq_true_eq]
            intro hac
            exact hc (hac ▸ ha))
        have h2 : [c].filter (fun x => decide (x ∉ [c])) = [] := by simp
        rw [h1, h2, List.append_nil]
      · rw [List.map_map]
        calc (rows.zip vs).map (fun p => dropRow (hd ++ [c]) [c] (p.1 ++ [p.2]))
            = (rows.zip vs).map (fun p => p.1) :=
              List.map_congr_left (fun p hp => by
                rw [dropRow_append_mem hd [c] p.1 c p.2
                  (hwf p.1 (List.of_mem_zip hp).1).symm (by simp)]
                exact dropRow_eq_self hd [c] p.1 (hwf p.1 (List.of_mem_zip hp).1)
                  (fun a ha => by
                    simp only [List.mem_singleton]
                    intro hac
                    exact hc (hac ▸ ha)))
          _ = rows := List.map_fst_zip _ _ (le_of_eq hlen.symm)

theorem classifiedTable_fresh (countryCol companyCol websiteCol noteCol sep : String)
    (t : Table) (hwf : t.WF)
    (hcc : countryCol ∈ t.header) (hnc : companyCol ∈ t.header) (hwc : websiteCol ∈ t.header)
    (hfresh : ∀ c ∈ tempColNames, c ∉ t.header) (hnote : noteCol ∉ t.header) :
    classifiedTable countryCol companyCol websiteCol noteCol sep t =
      { header := t.header ++ [noteCol],
        rows := (t.rows.zip (notesOf countryCol companyCol websiteCol sep t)).map
          (fun p => p.1 ++ [p.2]) } := by
  have hlc := getCol_length_of_mem t countryCol hcc
  have hln := getCol_length_of_mem t companyCol hnc
  have hlw := getCol_length_of_mem t websiteCol hwc
  have hdisj : ∀ c ∈ t.header, c ∉ tempColNames := fun c hc hmem => hfresh c hmem hc
  have hlens : ∀ p ∈ tempAssignments ((t.getCol countryCol).map normValue)
      ((t.getCol companyCol).map normValue) ((t.getCol websiteCol).map normValue),
      p.1 ∈ tempColNames ∧ p.2.length = t.rows.length := by
    intro p hp
    have h := tempAssignments_lengths _ _ _ (by simp [hln, hlc]) (by simp [hlw, hlc]) p hp
    exact ⟨h.1, by simpa [hlc] using h.2⟩
  have hdf2 : (t.setCols (tempAssignments ((t.getCol countryCol).map normValue)
      ((t.getCol companyCol).map normValue)
      ((t.getCol websiteCol).map normValue))).dropCols tempColNames = t := by
    rw [dropCols_setCols tempColNames _ t hwf hlens]
    exact dropCols_eq_self t tempColNames hwf hdisj
  unfold classifiedTable
  rw [hdf2]
  exact setCol_fresh t noteCol _ hnote

theorem detectResultOf_structure (countryCol companyCol websiteCol noteCol sep : String)
    (t : Table) (hwf : t.WF)
    (hcc : countryCol ∈ t.header) (hnc : companyCol ∈ t.header) (hwc : websiteCol ∈ t.header)
    (hfresh : ∀ c ∈ tempColNames, c ∉ t.header) (hnote : noteCol ∉ t.header) :
    (detectResultOf countryCol companyCol websiteCol noteCol sep t).full =
      { header := t.header ++ [noteCol],
        rows := (t.rows.zip (notesOf countryCol companyCol websiteCol sep t)).map
          (fun p => p.1 ++ [p.2]) } ∧
    (detectResultOf countryCol companyCol websiteCol noteCol sep t).dups =
      { header := t.header ++ [noteCol],
        rows := ((t.rows.zip (notesOf countryCol companyCol websiteCol sep t)).map
            (fun p => p.1 ++ [p.2])).filter
          (fun r => decide (r.getD t.header.length Value.missing ≠ Value.str "无重复")) } := by
  have hcl := classifiedTable_fresh countryCol companyCol websiteCol noteCol sep t hwf
    hcc hnc hwc hfresh hnote
  have hidx : colIndex noteCol (t.header ++ [noteCol]) = some t.header.length :=
    colIndex_append_self noteCol t.header hnote
  constructor
  · rw [detectResultOf, hcl]
  · rw [detectResultOf, dupsTableOf, hcl]
    simp only [hidx]

/-! ### Remaining claim theorems -/

/-- C5: when a required key column is absent from the loaded header, both
operations stop with the ValueError that carries the list of missing column
names and the full actual header; the error result means no output was
written and no classification or filtering was performed. -/
theorem missing_columns_hard_stop (countryCol companyCol websiteCol noteCol sep : String)
    (t : Table) (nameCol linkCol : String) (we : Bool) (file : Table)
    (hdet : ∃ c ∈ [countryCol, companyCol, websiteCol], c ∉ t.header)
    (hfind : ∃ c ∈ [nameCol, linkCol], c ∉ file.header) :
    detectDuplicateScenarios countryCol companyCol websiteCol noteCol sep t =
      .error (.missingColumns
        ([countryCol, companyCol, websiteCol].filter (fun c => decide (c ∉ t.header)))
        t.header) ∧
    findDuplicateRows nameCol linkCol none we file =
      .error (.missingColumns
        ([nameCol, linkCol].filter (fun c => decide (c ∉ file.header))) file.header) := by
  constructor
  · obtain ⟨c, hc, hcn⟩ := hdet
    have hmem : c ∈ [countryCol, companyCol, websiteCol].filter
        (fun c => decide (c ∉ t.header)) :=
      List.mem_filter.mpr ⟨hc, by simpa using hcn⟩
    have hne : ¬ ([countryCol, companyCol, websiteCol].filter
        (fun c => decide (c ∉ t.header))).isEmpty = true := by
      rw [List.isEmpty_iff]
      exact List.ne_nil_of_mem hmem
    simp only [detectDuplicateScenarios]
    rw [if_neg hne]
  · obtain ⟨c, hc, hcn⟩ := hfind
    have hmem : c ∈ [nameCol, linkCol].filter (fun c => decide (c ∉ file.header)) :=
      List.mem_filter.mpr ⟨hc, by simpa using hcn⟩
    have hne : ¬ ([nameCol, linkCol].filter (fun c => decide (c ∉ file.header))).isEmpty
        = true := by
      rw [List.isEmpty_iff]
      exact List.ne_nil_of_mem hmem
    have hstep : findDuplicateRows nameCol linkCol none we file =
        (if ([nameCol, linkCol].filter (fun c => decide (c ∉ file.header))).isEmpty
          then (.ok (findResultOf nameCol linkCol we file) : Except ExcelError FindResult)
          else .error (.missingColumns
            ([nameCol, linkCol].filter (fun c => decide (c ∉ file.header))) file.header)) :=
      rfl
    rw [hstep, if_neg hne]

/-- Witness for `missing_columns_hard_stop` on a table whose header lacks
every key column. -/
theorem missing_columns_hard_stop_witness :
    detectDuplicateScenarios "国家" "企业名称" "网址" "备注" "；" sampleNoKeyTable =
      .error (.missingColumns (["国家", "企业名称", "网址"].filter
        (fun c => decide (c ∉ sampleNoKeyTable.header))) sampleNoKeyTable.header) ∧
    findDuplicateRows "名字" "链接" none true sampleNoKeyTable =
      .error (.missingColumns (["名字", "链接"].filter
        (fun c => decide (c ∉ sampleNoKeyTable.header))) sampleNoKeyTable.header) :=
  missing_columns_hard_stop "国家" "企业名称" "网址" "备注" "；" sampleNoKeyTable
    "名字" "链接" true sampleNoKeyTable (by decide) (by decide)

/-- C4: a row of the loaded table belongs to the exact-pair finder's result
exactly when its composite key, built from the raw (non-normalized,
non-NaN-folded) values of the two designated columns, occurs at least twice
in the table; all occurrences are kept, in order. -/
theorem find_dup_membership_iff_multiplicity (nameCol linkCol : String) (we : Bool)
    (file : Table) (fres : FindResult) (ni li : Nat)
    (hni : colIndex nameCol file.header = some ni)
    (hli : colIndex linkCol file.header = some li)
    (hres : findDuplicateRows nameCol linkCol none we file = .ok fres) :
    fres.dups.header = file.header ∧
    fres.dups.rows = file.rows.filter (fun r =>
      decide (2 ≤ ((file.rows.map (fun r2 =>
          (r2.getD ni Value.missing, r2.getD li Value.missing))).filter (fun k =>
        decide (k = (r.getD ni Value.missing, r.getD li Value.missing)))).length)) := by
  obtain ⟨df, hload, hn, hl, rfl⟩ := find_ok_inv nameCol linkCol none we file fres hres
  have hdf : df = file := by
    simp only [Option.map_none', loadTable] at hload
    injection hload with h3
    exact h3.symm
  rw [hdf] at hn hl ⊢
  constructor
  · rw [findResultOf_dups]
  · rw [findResultOf_dups]
    have hkeys : (file.getCol nameCol).zip (file.getCol linkCol) =
        file.rows.map (fun r => (r.getD ni Value.missing, r.getD li Value.missing)) := by
      simp only [Table.getCol, hni, hli]
      exact List.zip_map' _ _ _
    rw [hkeys, duplicatedKeepFalse_eq_countMap, List.map_map]
    simp only [Function.comp_def]
    exact filter_zip_map file.rows (fun r =>
      decide (2 ≤ ((file.rows.map (fun r2 =>
        (r2.getD ni Value.missing, r2.getD li Value.missing))).filter (fun k =>
        decide (k = (r.getD ni Value.missing, r.getD li Value.missing)))).length))

/-- Witness for `find_dup_membership_iff_multiplicity` on a table whose rows
0 and 2 share a key. -/
theorem find_dup_membership_iff_multiplicity_witness :
    (findResultOf "名字" "链接" true sampleDupTable).dups.header = sampleDupTable.header ∧
    (findResultOf "名字" "链接" true sampleDupTable).dups.rows =
      sampleDupTable.rows.filter (fun r =>
        decide (2 ≤ ((sampleDupTable.rows.map (fun r2 =>
            (r2.getD 0 Value.missing, r2.getD 1 Value.missing))).filter (fun k =>
          decide (k = (r.getD 0 Value.missing, r.getD 1 Value.missing)))).length)) :=
  find_dup_membership_iff_multiplicity "名字" "链接" true sampleDupTable _ 0 1 rfl rfl rfl

/-- C8: the exact-pair finder returns the duplicates table in every success
case; it is written once in every case except when it is empty and
`write_empty` is false, in which case nothing is written. -/
theorem find_write_policy (nameCol linkCol : String) (extra : Option (List String)) (we : Bool)
    (file : Table) (fres : FindResult)
    (hres : findDuplicateRows nameCol linkCol extra we file = .ok fres) :
    (fres.dups.rows = [] → we = false → fres.writes = []) ∧
    (fres.dups.rows = [] → we = true → fres.writes = [fres.dups]) ∧
    (fres.dups.rows ≠ [] → fres.writes = [fres.dups]) := by
  obtain ⟨df, hload, hn, hl, rfl⟩ := find_ok_inv nameCol linkCol extra we file fres hres
  have hw : (findResultOf nameCol linkCol we df).writes =
      if (dupTableOf nameCol linkCol df).rows.isEmpty
      then (if we then [dupTableOf nameCol linkCol df] else [])
      else [dupTableOf nameCol linkCol df] := rfl
  have hd : (findResultOf nameCol linkCol we df).dups = dupTableOf nameCol linkCol df := rfl
  refine ⟨?_, ?_, ?_⟩
  · intro hemp hwe
    subst hwe
    rw [hd] at hemp
    rw [hw, if_pos (List.isEmpty_iff.mpr hemp)]
    rfl
  · intro hemp hwe
    subst hwe
    rw [hd] at hemp
    rw [hw, if_pos (List.isEmpty_iff.mpr hemp), if_pos rfl, hd]
  · intro hne
    rw [hd] at hne
    rw [hw, if_neg (fun h => hne (List.isEmpty_iff.mp h)), hd]

/-- Witness for `find_write_policy`: a duplicate-free table with
`write_empty = false` gives an empty result and no write. -/
theorem find_write_policy_witness :
    ((findResultOf "名字" "链接" false samplePairTable).dups.rows = [] → false = false →
      (findResultOf "名字" "链接" false samplePairTable).writes = []) ∧
    ((findResultOf "名字" "链接" false samplePairTable).dups.rows = [] → false = true →
      (findResultOf "名字" "链接" false samplePairTable).writes =
        [(findResultOf "名字" "链接" false samplePairTable).dups]) ∧
    ((findResultOf "名字" "链接" false samplePairTable).dups.rows ≠ [] →
      (findResultOf "名字" "链接" false samplePairTable).writes =
        [(findResultOf "名字" "链接" false samplePairTable).dups]) :=
  find_write_policy "名字" "链接" none false samplePairTable _ rfl

theorem full_rows_dropLast (countryCol companyCol websiteCol noteCol sep : String)
    (t : Table) (hwf : t.WF)
    (hfresh : ∀ c ∈ tempColNames, c ∉ t.header) (hnote : noteCol ∉ t.header)
    (hcc : countryCol ∈ t.header) (hnc : companyCol ∈ t.header) (hwc : websiteCol ∈ t.header) :
    (detectResultOf countryCol companyCol websiteCol noteCol sep t).full.rows.map
      List.dropLast = t.rows := by
  obtain ⟨hf1, _⟩ := detectResultOf_structure countryCol companyCol websiteCol noteCol sep t
    hwf hcc hnc hwc hfresh hnote
  have hnlen : (notesOf countryCol companyCol websiteCol sep t).length = t.rows.length :=
    notesOf_length countryCol companyCol websiteCol sep t hcc
  rw [hf1]
  show ((t.rows.zip (notesOf countryCol companyCol websiteCol sep t)).map
    (fun p => p.1 ++ [p.2])).map List.dropLast = t.rows
  rw [List.map_map]
  calc (t.rows.zip (notesOf countryCol companyCol websiteCol sep t)).map
        (List.dropLast ∘ fun p => p.1 ++ [p.2])
      = (t.rows.zip (notesOf countryCol companyCol websiteCol sep t)).map
        (fun p => p.1) :=
        List.map_congr_left (fun p _ => by
          show (p.1 ++ [p.2]).dropLast = p.1
          exact List.dropLast_concat)
    _ = t.rows := List.map_fst_zip _ _ (le_of_eq hnlen.symm)

theorem find_dups_sublist (nameCol linkCol : String) (extra : Option (List String)) (we : Bool)
    (file df : Table) (fres : FindResult)
    (hload : loadTable (extra.map (fun ex => [nameCol, linkCol] ++ ex)) file = .ok df)
    (hfind : findDuplicateRows nameCol linkCol extra we file = .ok fres) :
    fres.dups.rows.Sublist df.rows := by
  obtain ⟨df2, hload2, hn2, hl2, rfl⟩ := find_ok_inv nameCol linkCol extra we file fres hfind
  rw [hload] at hload2
  injection hload2 with hdf2
  subst hdf2
  rw [findResultOf_dups]
  exact filterMask_map_sublist _ _

theorem load_none_eq (nameCol linkCol : String) (extra : Option (List String))
    (file df : Table)
    (hload : loadTable (extra.map (fun ex => [nameCol, linkCol] ++ ex)) file = .ok df)
    (he : extra = none) : df = file := by
  subst he
  simp only [Option.map_none', loadTable] at hload
  injection hload with h3
  exact h3.symm

/-- C3: the full output keeps every input row in input order with the note
column appended after the original columns; the duplicates-only output is the
in-order filter of the full rows on "note cell is not the sentinel" with the
same column set, hence an order-preserving subsequence; and the exact-pair
finder's output rows form an order-preserving subsequence of its loaded
table's rows (the loaded table being the input file itself when
`extra_columns` is not used). -/
theorem outputs_preserve_order (countryCol companyCol websiteCol noteCol sep : String)
    (t : Table) (res : DetectResult) (hwf : t.WF)
    (hfresh : ∀ c ∈ tempColNames, c ∉ t.header) (hnote : noteCol ∉ t.header)
    (hres : detectDuplicateScenarios countryCol companyCol websiteCol noteCol sep t = .ok res)
    (nameCol linkCol : String) (extra : Option (List String)) (we : Bool)
    (file df : Table) (fres : FindResult)
    (hload : loadTable (extra.map (fun ex => [nameCol, linkCol] ++ ex)) file = .ok df)
    (hfind : findDuplicateRows nameCol linkCol extra we file = .ok fres) :
    res.full.header = t.header ++ [noteCol] ∧
    res.full.rows.map List.dropLast = t.rows ∧
    res.dups.header = res.full.header ∧
    res.dups.rows = res.full.rows.filter
      (fun r => decide (r.getD t.header.length Value.missing ≠ Value.str "无重复")) ∧
    res.dups.rows.Sublist res.full.rows ∧
    fres.dups.rows.Sublist df.rows ∧
    (extra = none → df = file) := by
  obtain ⟨hcc, hnc, hwc, rfl⟩ := detect_ok_inv _ _ _ _ _ _ _ hres
  obtain ⟨hf1, hf2⟩ := detectResultOf_structure countryCol companyCol websiteCol noteCol sep t
    hwf hcc hnc hwc hfresh hnote
  refine ⟨by rw [hf1],
    full_rows_dropLast countryCol companyCol websiteCol noteCol sep t hwf hfresh hnote
      hcc hnc hwc,
    by rw [hf1, hf2], by rw [hf1, hf2], ?_,
    find_dups_sublist nameCol linkCol extra we file df fres hload hfind,
    fun he => load_none_eq nameCol linkCol extra file df hload he⟩
  rw [hf1, hf2]
  exact List.filter_sublist _

/-- Witness for `outputs_preserve_order` at the concrete two-row
missing-country table and the one-row pair table. -/
theorem outputs_preserve_order_witness :
    (detectResultOf "国家" "企业名称" "网址" "备注" "；" sampleMissingTable).full.header =
      sampleMissingTable.header ++ ["备注"] ∧
    (detectResultOf "国家" "企业名称" "网址" "备注" "；" sampleMissingTable).full.rows.map
      List.dropLast = sampleMissingTable.rows ∧
    (detectResultOf "国家" "企业名称" "网址" "备注" "；" sampleMissingTable).dups.header =
      (detectResultOf "国家" "企业名称" "网址" "备注" "；" sampleMissingTable).full.header ∧
    (detectResultOf "国家" "企业名称" "网址" "备注" "；" sampleMissingTable).dups.rows =
      (detectResultOf "国家" "企业名称" "网址" "备注" "；" sampleMissingTable).full.rows.filter
        (fun r => decide (r.getD sampleMissingTable.header.length Value.missing ≠
          Value.str "无重复")) ∧
    (detectResultOf "国家" "企业名称" "网址" "备注" "；" sampleMissingTable).dups.rows.Sublist
      (detectResultOf "国家" "企业名称" "网址" "备注" "；" sampleMissingTable).full.rows ∧
    (findResultOf "名字" "链接" false samplePairTable).dups.rows.Sublist samplePairTable.rows ∧
    ((none : Option (List String)) = none → samplePairTable = samplePairTable) :=
  outputs_preserve_order "国家" "企业名称" "网址" "备注" "；" sampleMissingTable
    (detectResultOf "国家" "企业名称" "网址" "备注" "；" sampleMissingTable)
    (by unfold Table.WF; decide) (by decide) (by decide) rfl
    "名字" "链接" none false samplePairTable samplePairTable
    (findResultOf "名字" "链接" false samplePairTable) rfl rfl

set_option maxHeartbeats 1600000 in
/-- C9: removing the appended note column from the classifier's full output
restores the input table exactly, so re-running the classifier on that table
returns the identical result, in particular identical per-row notes. -/
theorem classifier_rerun_idempotent (countryCol companyCol websiteCol noteCol sep : String)
    (t : Table) (res : DetectResult) (hwf : t.WF)
    (hfresh : ∀ c ∈ tempColNames, c ∉ t.header) (hnote : noteCol ∉ t.header)
    (hres : detectDuplicateScenarios countryCol companyCol websiteCol noteCol sep t = .ok res) :
    res.full.dropCols [noteCol] = t ∧
    detectDuplicateScenarios countryCol companyCol websiteCol noteCol sep
      (res.full.dropCols [noteCol]) =
    detectDuplicateScenarios countryCol companyCol websiteCol noteCol sep t := by
  obtain ⟨hcc, hnc, hwc, rfl⟩ := detect_ok_inv _ _ _ _ _ _ _ hres
  have hcl := classifiedTable_fresh countryCol companyCol websiteCol noteCol sep t hwf
    hcc hnc hwc hfresh hnote
  have hdrop : (detectResultOf countryCol companyCol websiteCol noteCol sep t).full.dropCols
      [noteCol] = t := by
    rw [detectResultOf, hcl]
    exact dropCols_append_single t noteCol _ hwf hnote
      (notesOf_length countryCol companyCol websiteCol sep t hcc)
  exact ⟨hdrop, by rw [hdrop]⟩

/-- Witness for `classifier_rerun_idempotent` at the two-row missing-country
table. -/
theorem classifier_rerun_idempotent_witness :
    (detectResultOf "国家" "企业名称" "网址" "备注" "；" sampleMissingTable).full.dropCols
      ["备注"] = sampleMissingTable ∧
    detectDuplicateScenarios "国家" "企业名称" "网址" "备注" "；"
      ((detectResultOf "国家" "企业名称" "网址" "备注" "；" sampleMissingTable).full.dropCols
        ["备注"]) =
    detectDuplicateScenarios "国家" "企业名称" "网址" "备注" "；" sampleMissingTable :=
  classifier_rerun_idempotent "国家" "企业名称" "网址" "备注" "；" sampleMissingTable
    (detectResultOf "国家" "企业名称" "网址" "备注" "；" sampleMissingTable)
    (by unfold Table.WF; decide) (by decide) (by decide) rfl

/-- C10: reserved column names do not survive classification.  Whatever the
input table contained under the sixteen underscore temporary names is
overwritten during classification and then dropped, so no temporary name
occurs in the header of either output; and the note column of the full output
always holds the computed notes, so a pre-existing `note_col` column is
replaced by them. -/
theorem reserved_columns_clobbered (countryCol companyCol websiteCol noteCol sep : String)
    (t : Table) (res : DetectResult) (hwf : t.WF) (hnotetemp : noteCol ∉ tempColNames)
    (hres : detectDuplicateScenarios countryCol companyCol websiteCol noteCol sep t = .ok res) :
    (∀ c ∈ tempColNames, c ∉ res.full.header) ∧
    (∀ c ∈ tempColNames, c ∉ res.dups.header) ∧
    res.full.getCol noteCol = notesOf countryCol companyCol websiteCol sep t := by
  obtain ⟨hcc, hnc, hwc, rfl⟩ := detect_ok_inv _ _ _ _ _ _ _ hres
  have hlc := getCol_length_of_mem t countryCol hcc
  have hln := getCol_length_of_mem t companyCol hnc
  have hlw := getCol_length_of_mem t websiteCol hwc
  have hlens : ∀ p ∈ tempAssignments ((t.getCol countryCol).map normValue)
      ((t.getCol companyCol).map normValue) ((t.getCol websiteCol).map normValue),
      p.1 ∈ tempColNames ∧ p.2.length = t.rows.length := by
    intro p hp
    have h := tempAssignments_lengths _ _ _ (by simp [hln, hlc]) (by simp [hlw, hlc]) p hp
    exact ⟨h.1, by simpa [hlc] using h.2⟩
  have hdf2 : (t.setCols (tempAssignments ((t.getCol countryCol).map normValue)
      ((t.getCol companyCol).map normValue)
      ((t.getCol websiteCol).map normValue))).dropCols tempColNames
      = t.dropCols tempColNames :=
    dropCols_setCols tempColNames _ t hwf hlens
  have hwf2 : ((t.setCols (tempAssignments ((t.getCol countryCol).map normValue)
      ((t.getCol companyCol).map normValue)
      ((t.getCol websiteCol).map normValue))).dropCols tempColNames).WF := by
    rw [hdf2]
    exact WF_dropCols t tempColNames hwf
  have hlen2 : ((t.setCols (tempAssignments ((t.getCol countryCol).map normValue)
      ((t.getCol companyCol).map normValue)
      ((t.getCol websiteCol).map normValue))).dropCols tempColNames).rows.length
      = t.rows.length := by
    rw [hdf2]
    simp [Table.dropCols]
  have hnt : ∀ c ∈ tempColNames, c ∉ ((t.setCols (tempAssignments
      ((t.getCol countryCol).map normValue) ((t.getCol companyCol).map normValue)
      ((t.getCol websiteCol).map normValue))).dropCols tempColNames).header := by
    rw [hdf2]
    intro c hc hmem
    simp only [Table.dropCols, List.mem_filter, decide_eq_true_eq] at hmem
    exact hmem.2 hc
  have hfullhdr : ∀ c ∈ tempColNames,
      c ∉ (classifiedTable countryCol companyCol websiteCol noteCol sep t).header := by
    intro c hc
    unfold classifiedTable
    cases hcol : colIndex noteCol ((t.setCols (tempAssignments
        ((t.getCol countryCol).map normValue) ((t.getCol companyCol).map normValue)
        ((t.getCol websiteCol).map normValue))).dropCols tempColNames).header with
    | some i =>
        simp only [Table.setCol, hcol]
        exact hnt c hc
    | none =>
        simp only [Table.setCol, hcol, List.mem_append, List.mem_singleton]
        push_neg
        exact ⟨hnt c hc, fun h => hnotetemp (h ▸ hc)⟩
  have hnlen : (notesOf countryCol companyCol websiteCol sep t).length =
      ((t.setCols (tempAssignments ((t.getCol countryCol).map normValue)
        ((t.getCol companyCol).map normValue)
        ((t.getCol websiteCol).map normValue))).dropCols tempColNames).rows.length := by
    rw [hlen2]
    exact notesOf_length countryCol companyCol websiteCol sep t hcc
  refine ⟨?_, ?_, ?_⟩
  · simp only [detectResultOf]
    exact hfullhdr
  · simp only [detectResultOf, dupsTableOf]
    exact hfullhdr
  · simp only [detectResultOf]
    unfold classifiedTable
    exact getCol_setCol_self _ noteCol _ hwf2 hnlen

/-- Witness for `reserved_columns_clobbered` on a table that already contains
a `_country_norm` column and a pre-filled note column. -/
theorem reserved_columns_clobbered_witness :
    (∀ c ∈ tempColNames,
      c ∉ (detectResultOf "国家" "企业名称" "网址" "备注" "；" sampleClobberTable).full.header) ∧
    (∀ c ∈ tempColNames,
      c ∉ (detectResultOf "国家" "企业名称" "网址" "备注" "；" sampleClobberTable).dups.header) ∧
    (detectResultOf "国家" "企业名称" "网址" "备注" "；" sampleClobberTable).full.getCol "备注" =
      notesOf "国家" "企业名称" "网址" "；" sampleClobberTable :=
  reserved_columns_clobbered "国家" "企业名称" "网址" "备注" "；" sampleClobberTable
    (detectResultOf "国家" "企业名称" "网址" "备注" "；" sampleClobberTable)
    (by unfold Table.WF; decide) (by decide) rfl
